import Mathlib

/-!
Verification of the path-translation core of PRoot (src/path/path.c)
against its natural-language specification.

Paths are modelled as the list of bytes (here `Char`s) that precede the
terminating NUL of the C string; reading the buffer at an index past the
end of that list yields the NUL terminator, modelled by `byteAt`.
-/

namespace Proot

/-- The NUL terminator byte. -/
def nulChar : Char := Char.ofNat 0

/-- Reading byte `i` of a NUL-terminated buffer whose content is `p`:
within the content it is the listed byte, at (or conceptually past) the
end it is the NUL terminator. -/
def byteAt (p : List Char) (i : Nat) : Char := p.getD i nulChar

/-- PATH_MAX as on Linux. -/
def PATH_MAX : Nat := 4096

/-- NAME_MAX as on Linux. -/
def NAME_MAX : Nat := 255

def EPERM : Int := 1
def ENOTDIR : Int := 20
def ENAMETOOLONG : Int := 36

/-- The Comparison enum of path.h. -/
inductive Comparison
  | PATHS_ARE_EQUAL
  | PATH1_IS_PREFIX
  | PATH2_IS_PREFIX
  | PATHS_ARE_NOT_COMPARABLE
deriving DecidableEq, Repr

/-- compare_paths2 (path.c lines 406-457): compares two paths of the
given lengths.  The disabled-assert path (`if (!length1 || !length2)`)
returns PATHS_ARE_NOT_COMPARABLE; then at most one trailing slash is
trimmed from each length, the sentinel byte at the minimum trimmed
length of the longer path must be a slash or the NUL terminator, the
first `length_min` bytes must agree (strncmp), and the verdict follows
from the trimmed lengths. -/
def compare_paths2 (path1 : List Char) (length1 : Nat) (path2 : List Char) (length2 : Nat) :
    Comparison :=
  if length1 = 0 ∨ length2 = 0 then Comparison.PATHS_ARE_NOT_COMPARABLE
  else
    let l1 := if byteAt path1 (length1 - 1) = '/' then length1 - 1 else length1
    let l2 := if byteAt path2 (length2 - 1) = '/' then length2 - 1 else length2
    let length_min := min l1 l2
    let sentinel := if l1 < l2 then byteAt path2 length_min else byteAt path1 length_min
    if sentinel ≠ '/' ∧ sentinel ≠ nulChar then Comparison.PATHS_ARE_NOT_COMPARABLE
    else if ¬ (List.take length_min path1 = List.take length_min path2) then
      Comparison.PATHS_ARE_NOT_COMPARABLE
    else if l1 = l2 then Comparison.PATHS_ARE_EQUAL
    else if l1 < l2 then Comparison.PATH1_IS_PREFIX
    else Comparison.PATH2_IS_PREFIX

/-- compare_paths (path.c lines 459-462): compare_paths2 at the strlen
of each argument. -/
def compare_paths (path1 path2 : List Char) : Comparison :=
  compare_paths2 path1 path1.length path2 path2.length

/-- Modelled from the spec (section 4.B), for comparison with the code:
the comparator as the specification words it, where one trailing slash
is ignored "if any and not the sole character" of the path.  The length
trimmed this way. -/
def specTrimLen (p : List Char) : Nat :=
  if 1 < p.length ∧ byteAt p (p.length - 1) = '/' then p.length - 1 else p.length

/-- Modelled from the spec (section 4.B), for comparison with the code:
with `m` the minimum of the spec-trimmed lengths, the result is
NOT_COMPARABLE unless the byte at position `m` in the longer string is a
slash or NUL and the first `m` bytes agree; otherwise the verdict
follows from the trimmed lengths. -/
def spec_compare (p1 p2 : List Char) : Comparison :=
  let l1 := specTrimLen p1
  let l2 := specTrimLen p2
  let m := min l1 l2
  let sentinel := if l1 < l2 then byteAt p2 m else byteAt p1 m
  if (sentinel = '/' ∨ sentinel = nulChar) ∧ List.take m p1 = List.take m p2 then
    if l1 = l2 then Comparison.PATHS_ARE_EQUAL
    else if l1 < l2 then Comparison.PATH1_IS_PREFIX
    else Comparison.PATH2_IS_PREFIX
  else Comparison.PATHS_ARE_NOT_COMPARABLE

/-- The trimmed length the code actually uses: one trailing slash is
removed even when it is the sole character of the path. -/
def codeTrimLen (p : List Char) : Nat :=
  if byteAt p (p.length - 1) = '/' then p.length - 1 else p.length

/-- Modelled from the spec as amended: identical to `spec_compare`
except that the trailing slash is trimmed unconditionally, exactly as
the code does. -/
def amended_compare (p1 p2 : List Char) : Comparison :=
  let l1 := codeTrimLen p1
  let l2 := codeTrimLen p2
  let m := min l1 l2
  let sentinel := if l1 < l2 then byteAt p2 m else byteAt p1 m
  if (sentinel = '/' ∨ sentinel = nulChar) ∧ List.take m p1 = List.take m p2 then
    if l1 = l2 then Comparison.PATHS_ARE_EQUAL
    else if l1 < l2 then Comparison.PATH1_IS_PREFIX
    else Comparison.PATH2_IS_PREFIX
  else Comparison.PATHS_ARE_NOT_COMPARABLE

/-- C1 counterexample: on p1 = "/" and p2 = "/a" the code trims the sole
slash of p1 (length 0) and answers PATH1_IS_PREFIX, while the claim's
algorithm keeps the sole slash (trimmed length 1), reads the byte 'a' at
position 1 of the longer string, and answers NOT_COMPARABLE. -/
theorem compare_paths_sole_slash_cex :
    compare_paths ("/".data) ("/a".data) = Comparison.PATH1_IS_PREFIX ∧
    spec_compare ("/".data) ("/a".data) = Comparison.PATHS_ARE_NOT_COMPARABLE ∧
    ¬ compare_paths ("/".data) ("/a".data) = spec_compare ("/".data) ("/a".data) := by
  refine ⟨by decide, by decide, by decide⟩

/-- For non-empty paths the code's comparator agrees with the amended
spec wording (helper shared by several claims). -/
lemma compare_eq_amended_aux (p1 p2 : List Char) (h1 : p1 ≠ []) (h2 : p2 ≠ []) :
    compare_paths p1 p2 = amended_compare p1 p2 := by
  have n1 : p1.length ≠ 0 := by simpa using h1
  have n2 : p2.length ≠ 0 := by simpa using h2
  unfold compare_paths compare_paths2 amended_compare codeTrimLen
  simp only [n1, n2, or_self, if_false]
  set l1 := if byteAt p1 (p1.length - 1) = '/' then p1.length - 1 else p1.length with hl1
  set l2 := if byteAt p2 (p2.length - 1) = '/' then p2.length - 1 else p2.length with hl2
  split_ifs <;> first | rfl | tauto

/-- C1 (amended): for non-empty paths, `compare_paths` computes exactly
the spec's algorithm once the trailing slash is ignored unconditionally
(also when it is the sole character); and compare("/foo", "/foobar") is
NOT_COMPARABLE. -/
theorem compare_paths_follows_spec (p1 p2 : List Char)
    (h1 : p1 ≠ []) (h2 : p2 ≠ []) :
    compare_paths p1 p2 = amended_compare p1 p2 ∧
    compare_paths ("/foo".data) ("/foobar".data) = Comparison.PATHS_ARE_NOT_COMPARABLE :=
  ⟨compare_eq_amended_aux p1 p2 h1 h2, by decide⟩

/-- Witness for C1 (amended) at a concrete pair of non-empty paths. -/
theorem compare_paths_follows_spec_witness :
    compare_paths ("/jail".data) ("/jail/x".data) =
      amended_compare ("/jail".data) ("/jail/x".data) ∧
    compare_paths ("/foo".data) ("/foobar".data) = Comparison.PATHS_ARE_NOT_COMPARABLE :=
  compare_paths_follows_spec ("/jail".data) ("/jail/x".data) (by decide) (by decide)

/-- The comparator answers NOT_COMPARABLE whenever its first argument is
the empty string. -/
lemma compare_paths_nil_left (b : List Char) :
    compare_paths [] b = Comparison.PATHS_ARE_NOT_COMPARABLE := by
  simp [compare_paths, compare_paths2]

/-- The comparator answers NOT_COMPARABLE whenever its second argument is
the empty string. -/
lemma compare_paths_nil_right (a : List Char) :
    compare_paths a [] = Comparison.PATHS_ARE_NOT_COMPARABLE := by
  simp [compare_paths, compare_paths2]

/-- The byte found at the code-trimmed length of a path is always either
a slash (the trimmed one) or the NUL terminator. -/
lemma trim_sentinel (p : List Char) :
    byteAt p (codeTrimLen p) = '/' ∨ byteAt p (codeTrimLen p) = nulChar := by
  unfold codeTrimLen
  by_cases h : byteAt p (p.length - 1) = '/'
  · simp [h]
  · simp only [h, if_false]
    right
    unfold byteAt
    exact List.getD_eq_default _ _ (le_refl _)

/-- The amended comparator is symmetric up to swapping the prefix
verdicts. -/
lemma amended_compare_swap (p q : List Char) :
    (amended_compare p q = Comparison.PATHS_ARE_EQUAL ↔
      amended_compare q p = Comparison.PATHS_ARE_EQUAL) ∧
    (amended_compare p q = Comparison.PATH1_IS_PREFIX ↔
      amended_compare q p = Comparison.PATH2_IS_PREFIX) := by
  have hsp := trim_sentinel p
  have hsq := trim_sentinel q
  have hm : min (codeTrimLen q) (codeTrimLen p) = min (codeTrimLen p) (codeTrimLen q) :=
    Nat.min_comm _ _
  unfold amended_compare
  rcases Nat.lt_trichotomy (codeTrimLen p) (codeTrimLen q) with h | h | h
  · have h1 : ¬ codeTrimLen q < codeTrimLen p := by omega
    have h2 : ¬ codeTrimLen q = codeTrimLen p := by omega
    have h3 : ¬ codeTrimLen p = codeTrimLen q := by omega
    simp only [h, h1, h2, h3, hm, if_true, if_false]
    split_ifs with hA hB hB
    · exact ⟨by decide, by decide⟩
    · exact (hB ⟨hA.1, hA.2.symm⟩).elim
    · exact (hA ⟨hB.1, hB.2.symm⟩).elim
    · exact ⟨by decide, by decide⟩
  · have h4 : codeTrimLen q = codeTrimLen p := h.symm
    have h1 : ¬ codeTrimLen p < codeTrimLen p := by omega
    rw [h4] at hsq
    simp only [h4, Nat.min_self, h1, if_false, if_true]
    split_ifs with hA hB hB
    · exact ⟨by decide, by decide⟩
    · exact (hB ⟨hsq, hA.2.symm⟩).elim
    · exact (hA ⟨hsp, hB.2.symm⟩).elim
    · exact ⟨by decide, by decide⟩
  · have h1 : ¬ codeTrimLen p < codeTrimLen q := by omega
    have h2 : ¬ codeTrimLen q = codeTrimLen p := by omega
    have h3 : ¬ codeTrimLen p = codeTrimLen q := by omega
    simp only [h, h1, h2, h3, hm, if_true, if_false]
    split_ifs with hA hB hB
    · exact ⟨by decide, by decide⟩
    · exact (hB ⟨hA.1, hA.2.symm⟩).elim
    · exact (hA ⟨hB.1, hB.2.symm⟩).elim
    · exact ⟨by decide, by decide⟩

/-- C6: the comparator is symmetric up to swapping the prefix tags:
EQUAL is symmetric, and compare(a, b) = PATH1_IS_PREFIX exactly when
compare(b, a) = PATH2_IS_PREFIX. -/
theorem compare_paths_symmetric (a b : List Char) :
    (compare_paths a b = Comparison.PATHS_ARE_EQUAL ↔
      compare_paths b a = Comparison.PATHS_ARE_EQUAL) ∧
    (compare_paths a b = Comparison.PATH1_IS_PREFIX ↔
      compare_paths b a = Comparison.PATH2_IS_PREFIX) := by
  by_cases ha : a = []
  · subst ha
    simp [compare_paths_nil_left, compare_paths_nil_right]
  · by_cases hb : b = []
    · subst hb
      simp [compare_paths_nil_left, compare_paths_nil_right]
    · rw [compare_eq_amended_aux a b ha hb, compare_eq_amended_aux b a hb ha]
      exact amended_compare_swap a b

/-- The Finality enum of path.h (error returns are modelled by Except). -/
inductive Finality
  | NOT_FINAL
  | FINAL_NORMAL
  | FINAL_SLASH
deriving DecidableEq, Repr

/-- next_component (path.c lines 59-99): skip leading slashes, extract
the component up to the next slash or the end, fail when the component
would fill the NAME_MAX buffer, note whether a slash follows (a
directory is expected), skip the trailing slashes, and classify.  The
result is the extracted component, the finality tag, and the updated
cursor. -/
def next_component (cursor : List Char) : Except Int (List Char × Finality × List Char) :=
  let c1 := cursor.dropWhile (fun c => c = '/')
  let comp := c1.takeWhile (fun c => c ≠ '/')
  let rest := c1.dropWhile (fun c => c ≠ '/')
  if NAME_MAX ≤ comp.length then Except.error (-ENAMETOOLONG)
  else
    let want_dir := rest.head? = some '/'
    let rest2 := rest.dropWhile (fun c => c = '/')
    if rest2 = [] then
      Except.ok (comp, if want_dir then Finality.FINAL_SLASH else Finality.FINAL_NORMAL, rest2)
    else Except.ok (comp, Finality.NOT_FINAL, rest2)

/-- The run of leading slashes the lexer skips. -/
def lexLead (cursor : List Char) : List Char := cursor.takeWhile (fun c => c = '/')

/-- The component the lexer extracts. -/
def lexComp (cursor : List Char) : List Char :=
  (cursor.dropWhile (fun c => c = '/')).takeWhile (fun c => c ≠ '/')

/-- What follows the extracted component (empty, or starting with a
slash). -/
def lexAfter (cursor : List Char) : List Char :=
  (cursor.dropWhile (fun c => c = '/')).dropWhile (fun c => c ≠ '/')

/-- The run of slashes following the extracted component. -/
def lexSl (cursor : List Char) : List Char := (lexAfter cursor).takeWhile (fun c => c = '/')

/-- What remains of the input after the extracted component and its
trailing slashes. -/
def lexRest (cursor : List Char) : List Char := (lexAfter cursor).dropWhile (fun c => c = '/')

/-- A list keeps a non-empty run of leading slashes exactly when its
head is a slash. -/
lemma takeWhile_slash_ne_nil (l : List Char) :
    l.takeWhile (fun c => c = '/') ≠ [] ↔ l.head? = some '/' := by
  cases l with
  | nil => simp
  | cons c t =>
    by_cases hc : c = '/'
    · subst hc
      simp
    · simp [hc]

/-- What follows the extracted component starts with a slash exactly
when the run of trailing slashes is non-empty. -/
lemma lexAfter_head_iff (cursor : List Char) :
    (lexAfter cursor).head? = some '/' ↔ lexSl cursor ≠ [] := by
  unfold lexSl
  exact (takeWhile_slash_ne_nil (lexAfter cursor)).symm

/-- Unfolding of the lexer in terms of the split helpers (definitional). -/
lemma next_component_eq (cursor : List Char) :
    next_component cursor =
      if NAME_MAX ≤ (lexComp cursor).length then Except.error (-ENAMETOOLONG)
      else if lexRest cursor = [] then
        Except.ok (lexComp cursor,
          if (lexAfter cursor).head? = some '/' then Finality.FINAL_SLASH
          else Finality.FINAL_NORMAL,
          lexRest cursor)
      else Except.ok (lexComp cursor, Finality.NOT_FINAL, lexRest cursor) := rfl

/-- C5: the lexer splits its input into leading slashes, a slash-free
component, trailing slashes and a remainder not starting with a slash;
it fails with NAME_TOO_LONG exactly when the component would be at least
NAME_MAX bytes; otherwise it returns the component and remainder with
the tag NOT_FINAL when characters remain after the trailing slashes,
FINAL_SLASH when the input ends right after a trailing slash, and
FINAL_NORMAL when the input ends with no trailing slash. -/
theorem next_component_spec (cursor : List Char) :
    cursor = lexLead cursor ++ lexComp cursor ++ lexSl cursor ++ lexRest cursor ∧
    (lexLead cursor).all (fun c => c = '/') = true ∧
    (lexComp cursor).all (fun c => c ≠ '/') = true ∧
    (lexSl cursor).all (fun c => c = '/') = true ∧
    ¬ (lexRest cursor).head? = some '/' ∧
    (next_component cursor = Except.error (-ENAMETOOLONG) ↔
      NAME_MAX ≤ (lexComp cursor).length) ∧
    ((lexComp cursor).length < NAME_MAX →
      next_component cursor =
        Except.ok (lexComp cursor,
          if lexRest cursor ≠ [] then Finality.NOT_FINAL
          else if lexSl cursor ≠ [] then Finality.FINAL_SLASH
          else Finality.FINAL_NORMAL,
          lexRest cursor)) := by
  refine ⟨?_, ?_, ?_, ?_, ?_, ?_, ?_⟩
  · simp only [lexLead, lexComp, lexSl, lexRest, lexAfter, List.append_assoc]
    rw [List.takeWhile_append_dropWhile, List.takeWhile_append_dropWhile,
      List.takeWhile_append_dropWhile]
  · simp only [lexLead]
    exact List.all_takeWhile
  · simp only [lexComp]
    exact List.all_takeWhile
  · simp only [lexSl]
    exact List.all_takeWhile
  · intro hEq
    have h := List.head?_dropWhile_not (fun c => decide (c = '/')) (lexAfter cursor)
    unfold lexRest at hEq
    rw [hEq] at h
    simp at h
  · rw [next_component_eq]
    by_cases hc : NAME_MAX ≤ (lexComp cursor).length
    · rw [if_pos hc]
      simp [hc]
    · rw [if_neg hc]
      constructor
      · intro hE
        split_ifs at hE
      · intro hE
        exact (hc hE).elim
  · intro hlen
    have hc : ¬ NAME_MAX ≤ (lexComp cursor).length := by omega
    rw [next_component_eq, if_neg hc]
    by_cases hrest : lexRest cursor = []
    · rw [if_pos hrest]
      by_cases hw : (lexAfter cursor).head? = some '/'
      · have hsl : lexSl cursor ≠ [] := (lexAfter_head_iff cursor).mp hw
        rw [if_pos hw]
        simp [hrest, hsl]
      · have hsl : lexSl cursor = [] := by
          by_contra hne
          exact hw ((lexAfter_head_iff cursor).mpr hne)
        rw [if_neg hw]
        simp [hrest, hsl]
    · rw [if_neg hrest]
      simp [hrest]

/-- C10: on an input that is empty or consists solely of slashes, the
lexer reports an empty final component with tag FINAL_NORMAL (not
FINAL_SLASH) and an exhausted cursor. -/
theorem next_component_all_slashes (cursor : List Char)
    (h : ∀ c ∈ cursor, c = '/') :
    next_component cursor = Except.ok ([], Finality.FINAL_NORMAL, []) := by
  have hd : cursor.dropWhile (fun c => c = '/') = [] := by
    rw [List.dropWhile_eq_nil_iff]
    intro x hx
    simp [h x hx]
  unfold next_component
  rw [hd]
  simp [NAME_MAX]

/-- Witness for C10 at the concrete one-byte input "/". -/
theorem next_component_all_slashes_witness :
    next_component ("/".data) = Except.ok ([], Finality.FINAL_NORMAL, []) :=
  next_component_all_slashes ("/".data) (by decide)

/-- One backwards scan of pop_component: starting from `offset`, step
towards the front of the buffer while the guard `1 < offset` holds and
the byte at `offset` satisfies `p` (the C loops
`while (offset > 1 && p(path[offset])) offset--;`). -/
def skipWhileGt1 (p : Char → Bool) (path : List Char) : Nat → Nat
  | 0 => 0
  | 1 => 1
  | n + 2 => if p (byteAt path (n + 2)) then skipWhileGt1 p path (n + 1) else n + 2

/-- pop_component (path.c lines 104-131): cut the buffer right before
its last component.  `offset` starts at `strlen(path) - 1`; a one-byte
path is returned unchanged; otherwise trailing slashes and then the
last component are scanned backwards (never below offset 1) and the
string is truncated there.  (The C code's behaviour on the empty string
is undefined — an assert fires — and is modelled as the identity.) -/
def pop_component (path : List Char) : List Char :=
  if path.length - 1 = 0 then path
  else
    List.take
      (skipWhileGt1 (fun c => c != '/') path
        (skipWhileGt1 (fun c => c = '/') path (path.length - 1)))
      path

/-- The backwards scan never reaches offset 0 when started at 1 or
later. -/
lemma skipWhileGt1_pos (p : Char → Bool) (path : List Char) (n : Nat) :
    1 ≤ skipWhileGt1 p path (n + 1) := by
  induction n with
  | zero => simp [skipWhileGt1]
  | succ m ih =>
    show 1 ≤ skipWhileGt1 p path (m + 2)
    simp only [skipWhileGt1]
    split_ifs
    · exact ih
    · omega

/-- C8: on an absolute path the popped buffer is still a non-empty
string starting with the root slash, and popping the one-byte path "/"
leaves it unchanged. -/
theorem pop_component_keeps_root (path : List Char) (h : path.head? = some '/') :
    pop_component path ≠ [] ∧ (pop_component path).head? = some '/' ∧
    pop_component ("/".data) = "/".data := by
  obtain ⟨c, t, rfl⟩ : ∃ c t, path = c :: t := by
    cases path with
    | nil => simp at h
    | cons c t => exact ⟨c, t, rfl⟩
  have hc : c = '/' := by simpa using h
  subst hc
  refine ⟨?_, ?_, by decide⟩ <;>
  · unfold pop_component
    split_ifs with h0
    · simp
    · obtain ⟨m, hm⟩ : ∃ m, ('/' :: t).length - 1 = m + 1 :=
        ⟨('/' :: t).length - 2, by omega⟩
      rw [hm]
      have h1 : 1 ≤ skipWhileGt1 (fun c => c = '/') ('/' :: t) (m + 1) :=
        skipWhileGt1_pos _ _ m
      obtain ⟨m2, hm2⟩ : ∃ m2, skipWhileGt1 (fun c => c = '/') ('/' :: t) (m + 1) = m2 + 1 :=
        ⟨skipWhileGt1 (fun c => c = '/') ('/' :: t) (m + 1) - 1, by omega⟩
      rw [hm2]
      have h2 : 1 ≤ skipWhileGt1 (fun c => c != '/') ('/' :: t) (m2 + 1) :=
        skipWhileGt1_pos _ _ m2
      obtain ⟨m3, hm3⟩ : ∃ m3, skipWhileGt1 (fun c => c != '/') ('/' :: t) (m2 + 1) = m3 + 1 :=
        ⟨skipWhileGt1 (fun c => c != '/') ('/' :: t) (m2 + 1) - 1, by omega⟩
      rw [hm3]
      simp [List.take_succ_cons]

/-- Witness for C8 at the concrete absolute path "/a/b". -/
theorem pop_component_keeps_root_witness :
    pop_component ("/a/b".data) ≠ [] ∧
    (pop_component ("/a/b".data)).head? = some '/' ∧
    pop_component ("/".data) = "/".data :=
  pop_component_keeps_root ("/a/b".data) (by decide)

/-- The separator decision of join_paths (path.c lines 158-164): 1 when
a slash must be inserted between the accumulated result and the next
fragment, -1 when both sides contribute one and the fragment's leading
slash is skipped, 0 otherwise. -/
def need_separator (r p : List Char) : Int :=
  if 0 < r.length ∧ r.getLast? ≠ some '/' ∧ p.head? ≠ some '/' then 1
  else if 0 < r.length ∧ r.getLast? = some '/' ∧ p.head? = some '/' then -1
  else 0

/-- One iteration of the join_paths loop (path.c lines 149-181) on a
non-NUL fragment: fail when the cumulative length would reach PATH_MAX,
otherwise append the fragment with the separator decision applied. -/
def join_step (r p : List Char) : Except Int (List Char) :=
  if (PATH_MAX : Int) ≤ (r.length : Int) + (p.length : Int) + need_separator r p then
    Except.error (-ENAMETOOLONG)
  else if need_separator r p = -1 then Except.ok (r ++ p.tail)
  else if need_separator r p = 1 then Except.ok (r ++ '/' :: p)
  else Except.ok (r ++ p)

/-- The loop of join_paths over the fragment list: NUL fragments are
skipped and the first length failure aborts the whole call. -/
def join_loop (acc : List Char) : List (Option (List Char)) → Except Int (List Char)
  | [] => Except.ok acc
  | none :: rest => join_loop acc rest
  | some p :: rest =>
    match join_step acc p with
    | Except.error e => Except.error e
    | Except.ok r => join_loop r rest

/-- join_paths (path.c lines 138-185): fold the fragments into an
initially empty buffer. -/
def join_paths (paths : List (Option (List Char))) : Except Int (List Char) :=
  join_loop [] paths

/-- Whether a byte string starts with a slash. -/
def headIsSlash : List Char → Bool
  | c :: _ => c == '/'
  | [] => false

/-- Whether a byte string contains two adjacent slashes. -/
def hasDoubleSlash : List Char → Bool
  | c1 :: c2 :: rest => (c1 == '/' && c2 == '/') || hasDoubleSlash (c2 :: rest)
  | _ => false

/-- Unfolding of the double-slash scan over a cons cell. -/
lemma hasDoubleSlash_cons (c : Char) (l : List Char) :
    hasDoubleSlash (c :: l) = ((c == '/' && headIsSlash l) || hasDoubleSlash l) := by
  cases l <;> simp [hasDoubleSlash, headIsSlash]

/-- Appending keeps a byte string free of double slashes when both
parts are free of them and no slash meets another at the junction. -/
lemma hasDoubleSlash_append (xs ys : List Char)
    (hx : hasDoubleSlash xs = false) (hy : hasDoubleSlash ys = false)
    (hj : xs.getLast? = some '/' → headIsSlash ys = false) :
    hasDoubleSlash (xs ++ ys) = false := by
  induction xs with
  | nil => simpa using hy
  | cons x xs ih =>
    rw [List.cons_append, hasDoubleSlash_cons]
    rw [hasDoubleSlash_cons] at hx
    simp only [Bool.or_eq_false_iff] at hx ⊢
    obtain ⟨hx1, hx2⟩ := hx
    cases xs with
    | nil =>
      simp only [List.nil_append]
      constructor
      · by_cases hxs : x = '/'
        · have hys : headIsSlash ys = false := hj (by simp [hxs])
          simp [hys]
        · simp [hxs]
      · exact hy
    | cons y t =>
      have hj' : (y :: t).getLast? = some '/' → headIsSlash ys = false := by
        intro hl
        exact hj (by simpa using hl)
      constructor
      · have hhead : headIsSlash ((y :: t) ++ ys) = headIsSlash (y :: t) := rfl
        rw [hhead]
        exact hx1
      · exact ih hx2 hj'

/-- Prefixing a slash to a trimmed canonical fragment ends with a slash
exactly when the original fragment was the root "/". -/
lemma slash_cons_getLast_iff (b : List Char) (hbne : b ≠ [])
    (hblast : b.getLast? = some '/' → b = ['/']) :
    (('/' :: (if b.head? = some '/' then b.tail else b)).getLast? = some '/' ↔ b = ['/']) := by
  split_ifs with hbh
  · obtain ⟨c, t, rfl⟩ : ∃ c t, b = c :: t := by
      cases b with
      | nil => simp at hbh
      | cons c t => exact ⟨c, t, rfl⟩
    have hc : c = '/' := by simpa using hbh
    subst hc
    cases t with
    | nil => simp
    | cons d u =>
      constructor
      · intro hl
        exact absurd (hblast hl) (by simp)
      · intro hb2
        exact absurd hb2 (by simp)
  · cases b with
    | nil => exact (hbne rfl).elim
    | cons c t =>
      rw [List.getLast?_cons_cons]
      constructor
      · intro hl
        exact hblast hl
      · intro hb2
        rw [hb2] at hbh
        simp at hbh

/-- C3 counterexample: joining "a" with the empty fragment "" inserts a
separator before the empty fragment, so the buffer is "a/": it ends
with a slash although neither fragment is "/", and the joint length is
far below PATH_MAX. -/
theorem join_paths_empty_frag_cex :
    join_paths [some ("a".data), some ("".data)] = Except.ok ("a/".data) ∧
    ("a/".data).getLast? = some '/' ∧
    ¬ ("a".data = "/".data ∧ "".data = "/".data) ∧
    ("a".data).length + ("".data).length < PATH_MAX := by
  refine ⟨by rfl, by decide, by decide, by decide⟩

/-- C3 (amended): for non-empty fragments that contain no "//" and end
with a slash only when they are exactly "/", joining two fragments
places exactly one slash between them — the result is the first
fragment without its trailing slash, one "/", and the second fragment
without its leading slash — so the buffer never contains "//" and ends
with a slash exactly when the second fragment is "/". -/
theorem join_paths_canonical (a b : List Char)
    (hane : a ≠ []) (hadd : hasDoubleSlash a = false)
    (halast : a.getLast? = some '/' → a = ['/'])
    (hbne : b ≠ []) (hbdd : hasDoubleSlash b = false)
    (hblast : b.getLast? = some '/' → b = ['/'])
    (hlen : a.length + b.length + 1 < PATH_MAX) :
    join_paths [some a, some b] =
      Except.ok ((if a = ['/'] then [] else a) ++
        '/' :: (if b.head? = some '/' then b.tail else b)) ∧
    hasDoubleSlash ((if a = ['/'] then [] else a) ++
      '/' :: (if b.head? = some '/' then b.tail else b)) = false ∧
    (((if a = ['/'] then [] else a) ++
      '/' :: (if b.head? = some '/' then b.tail else b)).getLast? = some '/' ↔ b = ['/']) := by
  have hok : ∀ ns : Int, -1 ≤ ns → ns ≤ 1 →
      ¬ (PATH_MAX : Int) ≤ (a.length : Int) + (b.length : Int) + ns := by
    intro ns hn1 hn2
    omega
  have hfold : join_paths [some a, some b] = join_step a b := by
    have hns : need_separator [] a = 0 := by simp [need_separator]
    have h0 : join_step [] a = Except.ok a := by
      unfold join_step
      rw [hns]
      rw [if_neg (by simp only [List.length_nil]; push_cast; omega),
        if_neg (by norm_num), if_neg (by norm_num)]
      simp
    show (match join_step [] a with
      | Except.error e => Except.error e
      | Except.ok r => join_loop r [some b]) = join_step a b
    rw [h0]
    show (match join_step a b with
      | Except.error e => Except.error e
      | Except.ok r => Except.ok r) = join_step a b
    cases join_step a b <;> rfl
  have ha'last : (if a = ['/'] then ([] : List Char) else a).getLast? ≠ some '/' := by
    split_ifs with hae
    · simp
    · intro hl
      exact hae (halast hl)
  have hb'head : headIsSlash (if b.head? = some '/' then b.tail else b) = false := by
    split_ifs with hbh
    · obtain ⟨c, t, rfl⟩ : ∃ c t, b = c :: t := by
        cases b with
        | nil => simp at hbh
        | cons c t => exact ⟨c, t, rfl⟩
      have hc : c = '/' := by simpa using hbh
      subst hc
      rw [hasDoubleSlash_cons] at hbdd
      simp only [Bool.or_eq_false_iff] at hbdd
      simpa using hbdd.1
    · cases b with
      | nil => rfl
      | cons c t =>
        have hc : ¬ c = '/' := by
          intro hc
          exact hbh (by simp [hc])
        simp [headIsSlash, hc]
  have hb'dd : hasDoubleSlash (if b.head? = some '/' then b.tail else b) = false := by
    split_ifs with hbh
    · obtain ⟨c, t, rfl⟩ : ∃ c t, b = c :: t := by
        cases b with
        | nil => simp at hbh
        | cons c t => exact ⟨c, t, rfl⟩
      rw [hasDoubleSlash_cons] at hbdd
      simp only [Bool.or_eq_false_iff] at hbdd
      exact hbdd.2
    · exact hbdd
  refine ⟨?_, ?_, ?_⟩
  · rw [hfold]
    by_cases hae : a = ['/']
    · subst hae
      by_cases hbh : b.head? = some '/'
      · obtain ⟨t, rfl⟩ : ∃ t, b = '/' :: t := by
          cases b with
          | nil => simp at hbh
          | cons c t =>
            have hc : c = '/' := by simpa using hbh
            exact ⟨t, by rw [hc]⟩
        have hns : need_separator ['/'] ('/' :: t) = -1 := by
          simp [need_separator]
        unfold join_step
        rw [hns]
        rw [if_neg (hok (-1) (by norm_num) (by norm_num)), if_pos rfl]
        simp
      · have hns : need_separator ['/'] b = 0 := by
          simp [need_separator, hbh]
        unfold join_step
        rw [hns]
        rw [if_neg (hok 0 (by norm_num) (by norm_num)),
          if_neg (by norm_num), if_neg (by norm_num)]
        cases b with
        | nil => exact (hbne rfl).elim
        | cons c t =>
          have hc : ¬ c = '/' := by
            intro hc
            exact hbh (by simp [hc])
          simp [hc]
    · have hal : a.getLast? ≠ some '/' := fun hl => hae (halast hl)
      by_cases hbh : b.head? = some '/'
      · obtain ⟨t, rfl⟩ : ∃ t, b = '/' :: t := by
          cases b with
          | nil => simp at hbh
          | cons c t =>
            have hc : c = '/' := by simpa using hbh
            exact ⟨t, by rw [hc]⟩
        have hns : need_separator a ('/' :: t) = 0 := by
          simp [need_separator, hal]
        unfold join_step
        rw [hns]
        rw [if_neg (hok 0 (by norm_num) (by norm_num)),
          if_neg (by norm_num), if_neg (by norm_num)]
        simp [hae]
      · have hpos : 0 < a.length := List.length_pos.mpr hane
        have hns : need_separator a b = 1 := by
          simp [need_separator, hpos, hal, hbh]
        unfold join_step
        rw [hns]
        rw [if_neg (hok 1 (by norm_num) (by norm_num)),
          if_neg (by norm_num), if_pos rfl]
        simp [hae, hbh]
  · apply hasDoubleSlash_append
    · split_ifs with hae
      · rfl
      · exact hadd
    · rw [hasDoubleSlash_cons]
      simp [hb'head, hb'dd]
    · intro hl
      exact (ha'last hl).elim
  · rw [List.getLast?_append]
    have hiff := slash_cons_getLast_iff b hbne hblast
    obtain ⟨y, hy⟩ : ∃ y,
        ('/' :: (if b.head? = some '/' then b.tail else b)).getLast? = some y := by
      cases hgl : ('/' :: (if b.head? = some '/' then b.tail else b)).getLast? with
      | none => exact absurd (List.getLast?_eq_none_iff.mp hgl) (by simp)
      | some y => exact ⟨y, rfl⟩
    rw [hy] at hiff ⊢
    simpa using hiff

/-- Witness for C3 (amended) at the concrete fragments "/u" and "v". -/
theorem join_paths_canonical_witness :
    join_paths [some ("/u".data), some ("v".data)] = Except.ok ("/u/v".data) := by
  have h := join_paths_canonical ("/u".data) ("v".data) (by decide) (by decide)
    (by decide) (by decide) (by decide) (by decide) (by decide)
  simpa using h.1

/-- Result of substitute_binding as detranslate_path consumes it:
the C return 0 (symmetric binding, no change), the C return 1 (path
rewritten in place), and any other return (no binding applies). -/
inductive SubstResult
  | NO_MATCH
  | UNCHANGED
  | SUBSTITUTED (newPath : List Char)
deriving DecidableEq

/-- Modelled from the spec: the collaborators of detranslate_path whose
sources (path/binding.c, path/proc.c) are not part of this extract.
`subst` is substitute_binding(tracee, HOST, path) per spec section 4.D.
`getb` is get_path_binding(tracee, HOST, path) per spec section 4.D:
the matched binding's other side, or none.  `proc2` is
readlink_proc2(tracee, path, referrer) per spec section 4.H: some
rewritten path, or none when no rewrite applies (the C return 0). -/
structure Env where
  subst : List Char → SubstResult
  getb : List Char → Option (List Char)
  proc2 : List Char → List Char → Option (List Char)

/-- belongs_to_guestfs (path.c lines 391-397): the path is under (or
equal to) the guest rootfs host path. -/
def belongs_to_guestfs (root host_path : List Char) : Bool :=
  compare_paths root host_path = Comparison.PATHS_ARE_EQUAL ||
  compare_paths root host_path = Comparison.PATH1_IS_PREFIX

/-- The tail of detranslate_path (path.c lines 355-384): compare the
path with the guest rootfs host path; strip the rootfs when it is a
proper prefix (no byte is stripped when the rootfs is a single byte),
rewrite to "/" when equal, and otherwise fail with -EPERM under the
sanity check or return the path unchanged without it. -/
def detranslate_root (root path : List Char) (sanity_check : Bool) :
    Except Int (Nat × List Char) :=
  match compare_paths root path with
  | Comparison.PATH1_IS_PREFIX =>
    Except.ok (path.length - (if root.length = 1 then 0 else root.length) + 1,
      path.drop (if root.length = 1 then 0 else root.length))
  | Comparison.PATHS_ARE_EQUAL => Except.ok (2, "/".data)
  | _ => if sanity_check then Except.error (-EPERM) else Except.ok (0, path)

/-- The binding step of detranslate_path (path.c lines 344-353) followed
by the rootfs comparison: when bindings are followed, a symmetric
substitution returns 0, a proper substitution returns the new length
plus one, and no match falls through to the rootfs comparison. -/
def detranslate_tail (env : Env) (root path : List Char)
    (sanity_check follow_binding : Bool) : Except Int (Nat × List Char) :=
  if follow_binding then
    match env.subst path with
    | SubstResult.UNCHANGED => Except.ok (0, path)
    | SubstResult.SUBSTITUTED p' => Except.ok (p'.length + 1, p')
    | SubstResult.NO_MATCH => detranslate_root root path sanity_check
  else detranslate_root root path sanity_check

/-- detranslate_path (path.c lines 278-385).  Relative paths are
returned unchanged.  Without a referrer the sanity check and binding
follow-through are both on.  With a referrer under "/proc" the proc
emulator runs first and bindings are always followed; with a referrer
outside the guest rootfs bindings are followed only when path and
referrer resolve to the same binding.  (When the referrer lies outside
the guest rootfs but has no binding the C code's assert fires; that
unreachable branch is modelled as not following bindings.) -/
def detranslate_path (env : Env) (root path : List Char)
    (t_referrer : Option (List Char)) : Except Int (Nat × List Char) :=
  if path.head? ≠ some '/' then Except.ok (0, path)
  else
    match t_referrer with
    | none => detranslate_tail env root path true true
    | some referrer =>
      if compare_paths ("/proc".data) referrer = Comparison.PATH1_IS_PREFIX then
        match env.proc2 path referrer with
        | some newPath => Except.ok (newPath.length + 1, newPath)
        | none => detranslate_tail env root path false true
      else if belongs_to_guestfs root referrer = false then
        match env.getb path, env.getb referrer with
        | some referree, some referrer_binding =>
          detranslate_tail env root path false
            (compare_paths referree referrer_binding = Comparison.PATHS_ARE_EQUAL)
        | some _, none => detranslate_tail env root path false false
        | none, _ => detranslate_tail env root path false false
      else detranslate_tail env root path false false

/-- Without the sanity check the rootfs comparison never fails. -/
lemma detranslate_root_no_sanity (root path : List Char) :
    detranslate_root root path false ≠ Except.error (-EPERM) := by
  cases hc : compare_paths root path <;> simp [detranslate_root, hc]

/-- Without the sanity check the binding step never fails. -/
lemma detranslate_tail_no_sanity (env : Env) (root path : List Char) (fb : Bool) :
    detranslate_tail env root path false fb ≠ Except.error (-EPERM) := by
  cases fb with
  | false => exact detranslate_root_no_sanity root path
  | true =>
    unfold detranslate_tail
    rw [if_pos rfl]
    cases hs : env.subst path with
    | NO_MATCH => exact detranslate_root_no_sanity root path
    | UNCHANGED => simp
    | SUBSTITUTED q => simp

/-- When no binding applies the binding step falls through to the
rootfs comparison. -/
lemma detranslate_tail_nomatch (env : Env) (root path : List Char)
    (sc fb : Bool) (h : env.subst path = SubstResult.NO_MATCH) :
    detranslate_tail env root path sc fb = detranslate_root root path sc := by
  cases fb with
  | false => rfl
  | true =>
    unfold detranslate_tail
    rw [if_pos rfl, h]

/-- The guest-rootfs test spelt out on the comparator's verdicts. -/
lemma belongs_false_iff (root p : List Char) :
    belongs_to_guestfs root p = false ↔
      (compare_paths root p ≠ Comparison.PATHS_ARE_EQUAL ∧
        compare_paths root p ≠ Comparison.PATH1_IS_PREFIX) := by
  unfold belongs_to_guestfs
  simp

/-- Outside the rootfs, with the sanity check off, the rootfs
comparison returns the path unchanged with status 0. -/
lemma detranslate_root_outside (root path : List Char)
    (h1 : compare_paths root path ≠ Comparison.PATHS_ARE_EQUAL)
    (h2 : compare_paths root path ≠ Comparison.PATH1_IS_PREFIX) :
    detranslate_root root path false = Except.ok (0, path) := by
  cases hc : compare_paths root path <;>
    first
    | exact absurd hc h1
    | exact absurd hc h2
    | simp [detranslate_root, hc]

/-- C2: with no referrer and no binding substitution, an absolute path
is stripped of the guest-rootfs prefix when the rootfs is a proper
prefix of it (no byte is stripped when the rootfs is the single byte
"/"), rewritten to "/" when equal to the rootfs, and rejected with
PERMISSION_DENIED otherwise. -/
theorem detranslate_no_referrer (env : Env) (root path : List Char)
    (habs : path.head? = some '/') (hroot : root.head? = some '/')
    (hnb : env.subst path = SubstResult.NO_MATCH) :
    (compare_paths root path = Comparison.PATH1_IS_PREFIX →
      detranslate_path env root path none =
        Except.ok (path.length - (if root = ['/'] then 0 else root.length) + 1,
          path.drop (if root = ['/'] then 0 else root.length))) ∧
    (compare_paths root path = Comparison.PATHS_ARE_EQUAL →
      detranslate_path env root path none = Except.ok (2, "/".data)) ∧
    (compare_paths root path ≠ Comparison.PATH1_IS_PREFIX →
      compare_paths root path ≠ Comparison.PATHS_ARE_EQUAL →
      detranslate_path env root path none = Except.error (-EPERM)) := by
  have hr1 : root.length = 1 ↔ root = ['/'] := by
    obtain ⟨t, rfl⟩ : ∃ t, root = '/' :: t := by
      cases root with
      | nil => simp at hroot
      | cons c t =>
        have hc : c = '/' := by simpa using hroot
        exact ⟨t, by rw [hc]⟩
    simp
  have hstep : detranslate_path env root path none = detranslate_root root path true := by
    unfold detranslate_path
    rw [if_neg (by simp [habs])]
    exact detranslate_tail_nomatch env root path true true hnb
  refine ⟨?_, ?_, ?_⟩
  · intro hcmp
    rw [hstep]
    simp only [detranslate_root, hcmp, hr1]
  · intro hcmp
    rw [hstep]
    simp only [detranslate_root, hcmp]
  · intro h1 h2
    rw [hstep]
    cases hc : compare_paths root path <;>
      first
      | exact absurd hc h1
      | exact absurd hc h2
      | simp [detranslate_root, hc]

/-- A binding environment with no bindings and no proc rewrites, for
the concrete witnesses. -/
def trivialEnv : Env :=
  ⟨fun _ => SubstResult.NO_MATCH, fun _ => none, fun _ _ => none⟩

/-- Witness for C2: the rootfs "/jail" is stripped from "/jail/x". -/
theorem detranslate_no_referrer_witness :
    detranslate_path trivialEnv ("/jail".data) ("/jail/x".data) none =
      Except.ok (3, "/x".data) := by
  have h := (detranslate_no_referrer trivialEnv ("/jail".data) ("/jail/x".data)
    (by decide) (by decide) rfl).1 (by decide)
  simpa using h

/-- Unfolding of detranslate_path at a present referrer (definitional). -/
lemma detranslate_path_some (env : Env) (root path referrer : List Char) :
    detranslate_path env root path (some referrer) =
      if path.head? ≠ some '/' then Except.ok (0, path)
      else if compare_paths ("/proc".data) referrer = Comparison.PATH1_IS_PREFIX then
        match env.proc2 path referrer with
        | some newPath => Except.ok (newPath.length + 1, newPath)
        | none => detranslate_tail env root path false true
      else if belongs_to_guestfs root referrer = false then
        match env.getb path, env.getb referrer with
        | some referree, some referrer_binding =>
          detranslate_tail env root path false
            (compare_paths referree referrer_binding = Comparison.PATHS_ARE_EQUAL)
        | some _, none => detranslate_tail env root path false false
        | none, _ => detranslate_tail env root path false false
      else detranslate_tail env root path false false := by
  unfold detranslate_path
  by_cases habs : path.head? ≠ some '/'
  · rw [if_pos habs]
  · rw [if_neg habs]

/-- C9: with a referrer the sanity check is off, so detranslation never
fails with PERMISSION_DENIED; and an absolute path that matches no
binding and lies outside the guest rootfs is returned unchanged with
status 0. -/
theorem detranslate_with_referrer (env : Env) (root path referrer : List Char) :
    detranslate_path env root path (some referrer) ≠ Except.error (-EPERM) ∧
    (path.head? = some '/' →
      env.proc2 path referrer = none →
      env.subst path = SubstResult.NO_MATCH →
      env.getb path = none →
      belongs_to_guestfs root path = false →
      detranslate_path env root path (some referrer) = Except.ok (0, path)) := by
  constructor
  · rw [detranslate_path_some]
    by_cases habs : path.head? ≠ some '/'
    · rw [if_pos habs]
      simp
    · rw [if_neg habs]
      by_cases hproc : compare_paths ("/proc".data) referrer = Comparison.PATH1_IS_PREFIX
      · rw [if_pos hproc]
        cases hp2 : env.proc2 path referrer with
        | some q => simp
        | none => exact detranslate_tail_no_sanity env root path true
      · rw [if_neg hproc]
        by_cases hbel : belongs_to_guestfs root referrer = false
        · rw [if_pos hbel]
          cases h1 : env.getb path with
          | none => exact detranslate_tail_no_sanity env root path false
          | some referree =>
            cases h2 : env.getb referrer with
            | none => exact detranslate_tail_no_sanity env root path false
            | some rb => exact detranslate_tail_no_sanity env root path _
        · rw [if_neg hbel]
          exact detranslate_tail_no_sanity env root path false
  · intro habs hp2 hnb hgb hout
    obtain ⟨hne, hnp⟩ := (belongs_false_iff root path).mp hout
    have hroot_eq : detranslate_root root path false = Except.ok (0, path) :=
      detranslate_root_outside root path hne hnp
    rw [detranslate_path_some]
    rw [if_neg (by simp [habs])]
    by_cases hproc : compare_paths ("/proc".data) referrer = Comparison.PATH1_IS_PREFIX
    · rw [if_pos hproc, hp2]
      rw [detranslate_tail_nomatch env root path false true hnb]
      exact hroot_eq
    · rw [if_neg hproc]
      by_cases hbel : belongs_to_guestfs root referrer = false
      · rw [if_pos hbel, hgb]
        rw [detranslate_tail_nomatch env root path false false hnb]
        exact hroot_eq
      · rw [if_neg hbel]
        rw [detranslate_tail_nomatch env root path false false hnb]
        exact hroot_eq

/-- The dir_fd-anchored prologue of translate_path (path.c lines
211-237) for a relative fake_path with dir_fd ≠ AT_FDCWD, host syscalls
as oracles: `readlinkResult` is what readlink reports for
/proc/<pid>/fd/<dir_fd> (none when it fails), and `statResult` is
some (S_ISDIR of st_mode) when stat succeeds, none when stat fails.
The C code does not inspect stat's return value before testing
statl.st_mode, so on a failed stat it reads the UNINITIALIZED st_mode;
that indeterminate bit is modelled by the unconstrained `junk`
parameter. -/
def dirfd_anchor (readlinkResult : Option (List Char)) (statResult : Option Bool)
    (junk : Bool) : Except Int (List Char) :=
  match readlinkResult with
  | none => Except.error (-EPERM)
  | some result =>
    if PATH_MAX ≤ result.length then Except.error (-ENAMETOOLONG)
    else
      match statResult with
      | some isDir => if ¬ isDir then Except.error (-ENOTDIR) else Except.ok result
      | none => if ¬ junk then Except.error (-ENOTDIR) else Except.ok result

/-- C4 (the latent bug the spec warns about): when stat succeeds the
dir_fd sanity check behaves as the claim states, but when stat FAILS
the outcome depends on the uninitialized st_mode bit: the same failing
stat can let the call proceed (junk reads as a directory) or fail with
NOT_A_DIRECTORY, so a failed stat does not reliably lead to the failure
outcome. -/
theorem translate_dirfd_stat_bug :
    dirfd_anchor (some ("/tmp/dir".data)) none true = Except.ok ("/tmp/dir".data) ∧
    dirfd_anchor (some ("/tmp/dir".data)) none false = Except.error (-ENOTDIR) ∧
    (∀ junk : Bool,
      dirfd_anchor (some ("/tmp/dir".data)) (some false) junk = Except.error (-ENOTDIR)) ∧
    (∀ junk : Bool,
      dirfd_anchor (some ("/tmp/dir".data)) (some true) junk = Except.ok ("/tmp/dir".data)) := by
  refine ⟨rfl, rfl, fun j => rfl, fun j => rfl⟩

/-- One entry of /proc/<pid>/fd as foreach_fd sees it: the numeric name
and what readlink reports for it (none when readlink fails or the
target overflows PATH_MAX). -/
structure FdEntry where
  fd : Nat
  target : Option (List Char)

/-- The readdir loop of foreach_fd (path.c lines 489-513): entries whose
link cannot be read are skipped, as are targets that are no paths; the
first negative callback result is returned, and the loop otherwise ends
with 0. -/
def foreach_fd_loop (pid : Nat) (callback : Nat → Nat → List Char → Int) :
    List FdEntry → Int
  | [] => 0
  | e :: rest =>
    match e.target with
    | none => foreach_fd_loop pid callback rest
    | some path =>
      if path.head? ≠ some '/' then foreach_fd_loop pid callback rest
      else if callback pid e.fd path < 0 then callback pid e.fd path
      else foreach_fd_loop pid callback rest

/-- foreach_fd (path.c lines 471-519): a directory that cannot be
opened (or a pid whose /proc path does not format) yields 0; otherwise
the readdir loop runs. -/
def foreach_fd (pid : Nat) (dir : Option (List FdEntry))
    (callback : Nat → Nat → List Char → Int) : Int :=
  match dir with
  | none => 0
  | some entries => foreach_fd_loop pid callback entries

/-- list_open_fd (path.c lines 525-533): warn about every open fd; the
callback only logs and returns 0. -/
def list_open_fd (pid : Nat) (dir : Option (List FdEntry)) : Int :=
  foreach_fd (pid) dir (fun _ _ _ => 0)

/-- The loop of a callback that always answers 0 answers 0. -/
lemma foreach_fd_loop_zero (pid : Nat) (entries : List FdEntry) :
    foreach_fd_loop pid (fun _ _ _ => 0) entries = 0 := by
  induction entries with
  | nil => rfl
  | cons e rest ih =>
    unfold foreach_fd_loop
    cases ht : e.target with
    | none => exact ih
    | some path => simp [ih]

/-- The loop never answers a positive number. -/
lemma foreach_fd_loop_nonpos (pid : Nat) (callback : Nat → Nat → List Char → Int)
    (entries : List FdEntry) : foreach_fd_loop pid callback entries ≤ 0 := by
  induction entries with
  | nil => exact le_refl 0
  | cons e rest ih =>
    unfold foreach_fd_loop
    cases ht : e.target with
    | none => exact ih
    | some path =>
      by_cases h1 : path.head? ≠ some '/'
      · simp [h1, ih]
      · by_cases h2 : callback pid e.fd path < 0
        · simp only [h1, h2, if_true, if_false]
          omega
        · simp [h1, h2, ih]

/-- C7: list_open_fd returns 0 whatever /proc/<pid>/fd holds — also
when the directory cannot be opened; the loop skips entries whose link
cannot be read; and foreach_fd returns the first negative callback
result or 0, never a positive number. -/
theorem list_open_fd_returns_zero (pid : Nat) (dir : Option (List FdEntry)) :
    list_open_fd pid dir = 0 ∧
    (∀ callback fd rest, foreach_fd_loop pid callback (⟨fd, none⟩ :: rest) =
      foreach_fd_loop pid callback rest) ∧
    (∀ callback, foreach_fd pid dir callback ≤ 0) := by
  refine ⟨?_, ?_, ?_⟩
  · unfold list_open_fd foreach_fd
    cases dir with
    | none => rfl
    | some entries => exact foreach_fd_loop_zero pid entries
  · intro callback fd rest
    rfl
  · intro callback
    unfold foreach_fd
    cases dir with
    | none => exact le_refl 0
    | some entries => exact foreach_fd_loop_nonpos pid callback entries

end Proot
